import Mathlib

/-!
Verification of the asha RISC-V disassembly / decompilation pipeline.

The definitions below are a shallow embedding of the Rust sources:
`instructions.rs` (instruction data model, field-extraction macros),
`disassembly.rs` (the decoder), and `decompilation.rs` (basic blocks,
jump resolution, abstract-graph reduction and pseudocode emission).
Machine integers are modelled as `Nat` (for the unsigned `u32`/`u64`
values of the source) and `Int` (for the signed immediates); operations
that can panic in Rust (`unwrap`, `unimplemented!`) are modelled with
`Option`, a `none` result standing for an aborted computation.
-/

namespace Asha

/-- Source `BranchType` from decompilation.rs. -/
inductive BranchType where
  | Conditional
  | Unconditional
deriving DecidableEq, Repr

/-- Source `IT`, the instruction-format identifier enum from instructions.rs. -/
inductive IT where
  | R | I | S | B | U | J
deriving DecidableEq, Repr

/-- Source `ABIRegister` from instructions.rs. -/
inductive ABIRegister where
  | zero | ra | sp | gp | tp
  | t0 | t1 | t2
  | s0 | s1
  | a0 | a1 | a2 | a3 | a4 | a5 | a6 | a7
  | s2 | s3 | s4 | s5 | s6 | s7 | s8 | s9 | s10 | s11
  | t3 | t4 | t5 | t6
  | Unknown
deriving DecidableEq, Repr

/-- Source `impl From<u8> for ABIRegister`: binary register index to ABI name. -/
def ABIRegister.from_u8 (value : Nat) : ABIRegister :=
  match value with
  | 0 => .zero | 1 => .ra | 2 => .sp | 3 => .gp | 4 => .tp
  | 5 => .t0 | 6 => .t1 | 7 => .t2
  | 8 => .s0 | 9 => .s1
  | 10 => .a0 | 11 => .a1 | 12 => .a2 | 13 => .a3 | 14 => .a4
  | 15 => .a5 | 16 => .a6 | 17 => .a7
  | 18 => .s2 | 19 => .s3 | 20 => .s4 | 21 => .s5 | 22 => .s6
  | 23 => .s7 | 24 => .s8 | 25 => .s9 | 26 => .s10 | 27 => .s11
  | 28 => .t3 | 29 => .t4 | 30 => .t5 | 31 => .t6
  | _ => .Unknown

/-- Source `impl Display for ABIRegister`. -/
def ABIRegister.name : ABIRegister → String
  | .zero => "zero" | .ra => "ra" | .sp => "sp" | .gp => "gp" | .tp => "tp"
  | .t0 => "t0" | .t1 => "t1" | .t2 => "t2"
  | .s0 => "s0" | .s1 => "s1"
  | .a0 => "a0" | .a1 => "a1" | .a2 => "a2" | .a3 => "a3" | .a4 => "a4"
  | .a5 => "a5" | .a6 => "a6" | .a7 => "a7"
  | .s2 => "s2" | .s3 => "s3" | .s4 => "s4" | .s5 => "s5" | .s6 => "s6"
  | .s7 => "s7" | .s8 => "s8" | .s9 => "s9" | .s10 => "s10" | .s11 => "s11"
  | .t3 => "t3" | .t4 => "t4" | .t5 => "t5" | .t6 => "t6"
  | .Unknown => ""

/-- Source `InstructionType` from instructions.rs.  `I`/`S` immediates are the
`u16` fields of the source (modelled as `Nat`), `B`/`J` immediates the
`i16`/`i32` fields (modelled as `Int`), `U` the `u32` field (`Nat`). -/
inductive InstructionType where
  | R (name : String) (rd rs1 rs2 : ABIRegister)
  | I (name : String) (rd rs1 : ABIRegister) (imm : Nat)
  | S (name : String) (rs1 rs2 : ABIRegister) (imm : Nat)
  | B (name : String) (rs1 rs2 : ABIRegister) (imm : Int)
  | U (name : String) (rd : ABIRegister) (imm : Nat)
  | J (name : String) (rd : ABIRegister) (imm : Int)
deriving DecidableEq, Repr

/-- Source `InstructionType::get_name`. -/
def InstructionType.get_name : InstructionType → String
  | .R name _ _ _ => name
  | .I name _ _ _ => name
  | .S name _ _ _ => name
  | .B name _ _ _ => name
  | .U name _ _ => name
  | .J name _ _ => name

/-- Source `impl Display for InstructionType`. -/
def InstructionType.render : InstructionType → String
  | .R name rd rs1 rs2 => name ++ " " ++ rd.name ++ ", " ++ rs1.name ++ ", " ++ rs2.name
  | .I name rd rs1 imm => name ++ " " ++ rd.name ++ ", " ++ rs1.name ++ ", " ++ toString imm
  | .S name rs1 rs2 imm => name ++ " " ++ rs1.name ++ ", " ++ rs2.name ++ ", " ++ toString imm
  | .B name rs1 rs2 imm => name ++ " " ++ rs1.name ++ ", " ++ rs2.name ++ ", " ++ toString imm
  | .U name rd imm => name ++ " " ++ rd.name ++ ", " ++ toString imm
  | .J name rd imm => name ++ " " ++ rd.name ++ ", " ++ toString imm

/-! ### Field extraction (`retrieve!` macro of instructions.rs) -/

/-- Source `retrieve!(opcode ...)`: bits 6:2. -/
def retrieve_opcode (w : Nat) : Nat := (w >>> 2) &&& 0x1f

/-- Source `retrieve!(rd ...)`: bits 11:7. -/
def retrieve_rd (w : Nat) : Nat := (w >>> 7) &&& 0x1f

/-- Source `retrieve!(funct3 ...)`: bits 14:12. -/
def retrieve_funct3 (w : Nat) : Nat := (w >>> 12) &&& 0x7

/-- Source `retrieve!(funct7 ...)`: bits 31:25. -/
def retrieve_funct7 (w : Nat) : Nat := (w >>> 25) &&& 0x7f

/-- Source `retrieve!(rs1 ...)`: bits 19:15. -/
def retrieve_rs1 (w : Nat) : Nat := (w >>> 15) &&& 0x1f

/-- Source `retrieve!(rs2 ...)`: bits 24:20. -/
def retrieve_rs2 (w : Nat) : Nat := (w >>> 20) &&& 0x1f

/-- Source `retrieve!(iimm ...)`: bits 31:20. -/
def retrieve_iimm (w : Nat) : Nat := (w >>> 20) &&& 0xfff

/-- Source `retrieve!(simm ...)`: bits 31:25 over bits 11:7. -/
def retrieve_simm (w : Nat) : Nat :=
  ((w >>> 20) &&& 0b111111100000) ||| ((w >>> 7) &&& 0b11111)

/-- Source `retrieve!(bimm ...)`: the 13-bit branch offset (implicit zero LSB). -/
def retrieve_bimm (w : Nat) : Nat :=
  ((w >>> 19) &&& 0b1000000000000) |||
  ((w <<< 4) &&& 0b100000000000) |||
  ((w >>> 20) &&& 0b11111100000) |||
  ((w >>> 7) &&& 0b11110)

/-- Source `retrieve!(uimm ...)`: bits 31:12. -/
def retrieve_uimm (w : Nat) : Nat := (w >>> 12) &&& 0xfffff

/-- Source `retrieve!(jimm ...)`: the 21-bit jump offset (implicit zero LSB). -/
def retrieve_jimm (w : Nat) : Nat :=
  ((w >>> 11) &&& 0b100000000000000000000) |||
  (w &&& 0b11111111000000000000) |||
  ((w >>> 9) &&& 0b100000000000) |||
  ((w >>> 20) &&& 0b11111111110)

/-- Source `convert_to_signed` from disassembly.rs: interpret the low `bits`
bits of `value` as a signed number in wrap-around form. -/
def convert_to_signed (value bits : Nat) : Int :=
  let max := 2 ^ (bits - 1) - 1
  let v := value % 2 ^ bits
  if v ≤ max then (v : Int) else (v : Int) - (2 ^ bits : Nat)

/-- Source `OpcodeBitfield::from_opcode` combined with `determine_type` from
disassembly.rs: classify a 5-bit opcode into an instruction format. -/
def determine_type (opcode : Nat) : Option IT :=
  let op4 := (opcode >>> 4) = 1
  let op3 := ((opcode >>> 3) &&& 1) = 1
  let op2 := ((opcode >>> 2) &&& 1) = 1
  let op1 := ((opcode >>> 1) &&& 1) = 1
  let op0 := (opcode &&& 1) = 1
  if (op4 ∧ op2) ∨ (op3 ∧ op2 ∧ ¬ op0) then some .R
  else if (¬ op4 ∧ ¬ op3 ∧ ¬ op2) ∨ (¬ op4 ∧ ¬ op3 ∧ ¬ op0) ∨ (op4 ∧ op3 ∧ ¬ op1 ∧ op0) then some .I
  else if ¬ op4 ∧ op3 ∧ ¬ op2 then some .S
  else if op4 ∧ op3 ∧ ¬ op0 then some .B
  else if op2 ∧ op0 then some .U
  else if op3 ∧ ¬ op2 ∧ op1 then some .J
  else none

/-- The static `INSTRUCTIONS` phf table of instructions.rs, as
`from_bits`: `(opcode, funct3, funct7)` to mnemonic. -/
def from_bits (opcode funct3 funct7 : Nat) : Option String :=
  match opcode, funct3, funct7 with
  | 0b00000, 0b000, 0b0000000 => some "lb"
  | 0b00000, 0b001, 0b0000000 => some "lh"
  | 0b00000, 0b010, 0b0000000 => some "lw"
  | 0b00000, 0b100, 0b0000000 => some "lbu"
  | 0b00000, 0b101, 0b0000000 => some "lhu"
  | 0b00100, 0b000, 0b0000000 => some "addi"
  | 0b00100, 0b001, 0b0000000 => some "slli"
  | 0b00100, 0b010, 0b0000000 => some "slti"
  | 0b00100, 0b011, 0b0000000 => some "sltiu"
  | 0b00100, 0b100, 0b0000000 => some "xori"
  | 0b00100, 0b101, 0b0000000 => some "srli"
  | 0b00100, 0b101, 0b0100000 => some "srai"
  | 0b00100, 0b110, 0b0000000 => some "ori"
  | 0b00100, 0b111, 0b0000000 => some "andi"
  | 0b00101, 0b000, 0b0000000 => some "auipc"
  | 0b01000, 0b000, 0b0000000 => some "sb"
  | 0b01000, 0b001, 0b0000000 => some "sh"
  | 0b01000, 0b010, 0b0000000 => some "sw"
  | 0b01100, 0b000, 0b0000000 => some "add"
  | 0b01100, 0b000, 0b0100000 => some "sub"
  | 0b01100, 0b001, 0b0000000 => some "sll"
  | 0b01100, 0b010, 0b0000000 => some "slt"
  | 0b01100, 0b011, 0b0000000 => some "sltu"
  | 0b01100, 0b100, 0b0000000 => some "xor"
  | 0b01100, 0b101, 0b0000000 => some "srl"
  | 0b01100, 0b101, 0b0100000 => some "sra"
  | 0b01100, 0b110, 0b0000000 => some "or"
  | 0b01100, 0b111, 0b0000000 => some "and"
  | 0b01101, 0b000, 0b0000000 => some "lui"
  | 0b11000, 0b000, 0b0000000 => some "beq"
  | 0b11000, 0b001, 0b0000000 => some "bne"
  | 0b11000, 0b100, 0b0000000 => some "blt"
  | 0b11000, 0b101, 0b0000000 => some "bge"
  | 0b11000, 0b110, 0b0000000 => some "bltu"
  | 0b11000, 0b111, 0b0000000 => some "bgeu"
  | 0b11001, 0b000, 0b0000000 => some "jalr"
  | 0b11011, 0b000, 0b0000000 => some "jal"
  | 0b00000, 0b011, 0b0000000 => some "ld"
  | 0b00000, 0b110, 0b0000000 => some "lwu"
  | 0b00110, 0b000, 0b0000000 => some "addiw"
  | 0b00110, 0b001, 0b0000000 => some "slliw"
  | 0b00110, 0b101, 0b0000000 => some "srliw"
  | 0b01000, 0b011, 0b0000000 => some "sd"
  | 0b01110, 0b000, 0b0000000 => some "addw"
  | 0b01110, 0b000, 0b0100000 => some "subw"
  | 0b01110, 0b001, 0b0000000 => some "sllw"
  | 0b01110, 0b101, 0b0000000 => some "srlw"
  | 0b01110, 0b101, 0b0100000 => some "sraw"
  | 0b11100, 0b000, 0b0000000 => some "syscall"
  | 0b11100, 0b001, 0b0000000 => some "csrrw"
  | 0b11100, 0b010, 0b0000000 => some "csrrs"
  | 0b11100, 0b011, 0b0000000 => some "csrrc"
  | 0b11100, 0b101, 0b0000000 => some "csrrwi"
  | 0b11100, 0b110, 0b0000000 => some "csrrsi"
  | 0b11100, 0b111, 0b0000000 => some "csrrci"
  | _, _, _ => none

/-- Source `determine_name` from disassembly.rs. -/
def determine_name (w : Nat) : Option (String × IT) :=
  let opcode := retrieve_opcode w
  match determine_type opcode with
  | none => none
  | some i_type =>
    let funct3 :=
      if ¬ (i_type = IT.U ∨ i_type = IT.J) then retrieve_funct3 w else 0
    let funct7 :=
      if ¬ (i_type = IT.U ∨ i_type = IT.J) then
        (if i_type = IT.R ∨ opcode = 0b00100 then retrieve_funct7 w else 0)
      else 0
    (from_bits opcode funct3 funct7).map (fun name => (name, i_type))

/-- Source `disassemble` from disassembly.rs: decode one 32-bit word. -/
def disassemble (w : Nat) : Option InstructionType :=
  if w = 0 ∨ w = 0xFFFFFFFF ∨ w &&& 0b11 ≠ 0b11 then none
  else
    match determine_name w with
    | some (name, IT.R) =>
      some (.R name (ABIRegister.from_u8 (retrieve_rd w))
        (ABIRegister.from_u8 (retrieve_rs1 w)) (ABIRegister.from_u8 (retrieve_rs2 w)))
    | some (name, IT.I) =>
      some (.I name (ABIRegister.from_u8 (retrieve_rd w))
        (ABIRegister.from_u8 (retrieve_rs1 w)) (retrieve_iimm w))
    | some (name, IT.S) =>
      some (.S name (ABIRegister.from_u8 (retrieve_rs1 w))
        (ABIRegister.from_u8 (retrieve_rs2 w)) (retrieve_simm w))
    | some (name, IT.B) =>
      some (.B name (ABIRegister.from_u8 (retrieve_rs1 w))
        (ABIRegister.from_u8 (retrieve_rs2 w)) (convert_to_signed (retrieve_bimm w) 12))
    | some (name, IT.U) =>
      some (.U name (ABIRegister.from_u8 (retrieve_rd w)) (retrieve_uimm w))
    | some (name, IT.J) =>
      some (.J name (ABIRegister.from_u8 (retrieve_rd w)) (convert_to_signed (retrieve_jimm w) 20))
    | none => none

/-! ### Specification-side immediate values

These definitions follow the bit layouts stated in the specification
(section 4.1), for comparison against the decoder above. -/

/-- Bit `i` of `w`. -/
def bit (w i : Nat) : Nat := (w >>> i) &&& 1

/-- Sign extension exactly as the specification words it: for a value
`v` in `n` bits, if `v ≥ 2^(n-1)` return `v - 2^n`, else `v`. -/
def spec_sign_extend (v n : Nat) : Int :=
  if v ≥ 2 ^ (n - 1) then (v : Int) - (2 ^ n : Nat) else (v : Int)

/-- The specification layout `i_imm = sign-extend(bits[31:20], 12)`. -/
def spec_i_imm (w : Nat) : Int := spec_sign_extend ((w >>> 20) &&& 0xfff) 12

/-- The specification layout `s_imm = sign-extend(bits[31:25] over bits[11:7], 12)`. -/
def spec_s_imm (w : Nat) : Int :=
  spec_sign_extend ((((w >>> 25) &&& 0x7f) <<< 5) ||| ((w >>> 7) &&& 0x1f)) 12

/-- The specification layout for the 13-bit branch immediate
`b_imm = sign-extend(bits[31] bits[7] bits[30:25] bits[11:8] 0, 13)`. -/
def spec_b_imm (w : Nat) : Int :=
  spec_sign_extend
    ((bit w 31 <<< 12) ||| (bit w 7 <<< 11) |||
     (((w >>> 25) &&& 0x3f) <<< 5) ||| (((w >>> 8) &&& 0xf) <<< 1)) 13

/-- The specification layout for the 21-bit jump immediate
`j_imm = sign-extend(bits[31] bits[19:12] bits[20] bits[30:21] 0, 21)`. -/
def spec_j_imm (w : Nat) : Int :=
  spec_sign_extend
    ((bit w 31 <<< 20) ||| (((w >>> 12) &&& 0xff) <<< 12) |||
     (bit w 20 <<< 11) ||| (((w >>> 21) &&& 0x3ff) <<< 1)) 21

/-! ### Ordered maps

`BTreeMap` is modelled as an association list sorted by key; `insert`
replaces the value when the key is already present, and iteration is in
increasing key order, as for the Rust type. -/

/-- Source `BTreeMap::insert`, keeping the list sorted by key. -/
def mapInsert {α : Type} (k : Nat) (v : α) : List (Nat × α) → List (Nat × α)
  | [] => [(k, v)]
  | (k', v') :: rest =>
    if k < k' then (k, v) :: (k', v') :: rest
    else if k = k' then (k, v) :: rest
    else (k', v') :: mapInsert k v rest

/-- Source `BTreeMap::get` / lookup of the first entry with the given key. -/
def mapLookup {α : Type} (l : List (Nat × α)) (k : Nat) : Option α :=
  (l.find? (fun p => p.1 = k)).map (fun p => p.2)

/-- Source `BTreeMap::remove`: drop the entries with the given key. -/
def mapRemove {α : Type} (l : List (Nat × α)) (k : Nat) : List (Nat × α) :=
  l.filter (fun p => p.1 ≠ k)

/-- Apply a function to the value stored under `k` (the effect of
`get_mut` followed by in-place mutation). -/
def mapAdjust {α : Type} (l : List (Nat × α)) (k : Nat) (f : α → α) : List (Nat × α) :=
  l.map (fun p => if p.1 = k then (p.1, f p.2) else p)

/-! ### Basic blocks (`InstructionSection` of decompilation.rs) -/

/-- Source `InstructionSection` from decompilation.rs.  `branches` stores the
ids of the branch-target sections (the source stores `Arc` snapshots of
the sections, of which only the id is ever read). -/
structure InstructionSection where
  id : Nat
  instructions : List (Nat × InstructionType)
  branches : List Nat
  branch_type : Option BranchType
  start : Nat
  endAddr : Nat
deriving DecidableEq, Repr

/-- Source `InstructionSection::new`. -/
def InstructionSection.new (id : Nat) : InstructionSection :=
  ⟨id, [], [], none, 0, 0⟩

/-- Source `InstructionSection::push`. -/
def InstructionSection.push (s : InstructionSection) (address : Nat)
    (instruction : InstructionType) : InstructionSection :=
  { s with instructions := mapInsert address instruction s.instructions }

/-- Source `InstructionSection::set_branch_type`. -/
def InstructionSection.set_branch_type (s : InstructionSection)
    (bt : BranchType) : InstructionSection :=
  { s with branch_type := some bt }

/-- Source `InstructionSection::add_branch` (the id of the target is recorded). -/
def InstructionSection.add_branch (s : InstructionSection) (target : Nat) :
    InstructionSection :=
  { s with branches := s.branches ++ [target] }

/-- Source `InstructionSection::add_to_range`. -/
def InstructionSection.add_to_range (s : InstructionSection) (address : Nat) :
    InstructionSection :=
  let s := if s.start = 0 then { s with start := address } else s
  if address > s.endAddr then { s with endAddr := address } else s

/-- Source `InstructionSection::in_block`. -/
def InstructionSection.in_block (s : InstructionSection) (address : Nat) : Prop :=
  s.start ≤ address ∧ address ≤ s.endAddr

instance (s : InstructionSection) (a : Nat) : Decidable (s.in_block a) :=
  inferInstanceAs (Decidable (_ ∧ _))

/-- Whether an instruction starts a branch in `make_blocks` (B- and
J-type instructions), and with which `BranchType`. -/
def branch_kind : InstructionType → Option BranchType
  | .B _ _ _ _ => some .Conditional
  | .J _ _ _ => some .Unconditional
  | _ => none

/-- The loop body of `make_blocks`, processing the address-ordered
instruction entries while accumulating finished sections. -/
def make_blocks_go (curr : InstructionSection) (section_id : Nat)
    (sections : List InstructionSection) :
    List (Nat × InstructionType) → List InstructionSection
  | [] => sections ++ [curr]
  | (address, inst) :: rest =>
    match branch_kind inst with
    | some bt =>
      let curr := ((curr.set_branch_type bt).push address inst).add_to_range address
      make_blocks_go (InstructionSection.new section_id) (section_id + 1)
        (sections ++ [curr]) rest
    | none =>
      make_blocks_go ((curr.push address inst).add_to_range address) section_id
        sections rest

/-- Source `make_blocks` from decompilation.rs: split the address-to-instruction
map into basic blocks. -/
def make_blocks (instructions : List (Nat × InstructionType)) :
    List InstructionSection :=
  make_blocks_go (InstructionSection.new 0) 1 [] instructions

/-- Source `find_section` from decompilation.rs: index of the first section
whose address range contains `address`. -/
def find_section (sections : List InstructionSection) (address : Nat) :
    Option Nat :=
  (sections.findIdx? (fun s => decide (s.in_block address)))

/-- Source `u64::checked_add_signed`: `none` on overflow below 0 or above
`2^64 - 1`. -/
def checked_add_signed (pc : Nat) (imm : Int) : Option Nat :=
  let t : Int := (pc : Int) + imm
  if 0 ≤ t ∧ t < (2 ^ 64 : Nat) then some t.toNat else none

/-- Append a branch id to the section at position `i` of the slice. -/
def add_branch_at : List InstructionSection → Nat → Nat → List InstructionSection
  | [], _, _ => []
  | s :: rest, 0, b => s.add_branch b :: rest
  | s :: rest, i + 1, b => s :: add_branch_at rest i b

/-- The id of the section at position `i` (positions handed to this are
always in range in `resolve_jumps`). -/
def id_at (sections : List InstructionSection) (i : Nat) : Nat :=
  ((sections.get? i).map (fun s => s.id)).getD 0

/-- One iteration of the `resolve_jumps` loop, for the section at
position `i`.  `none` models a panic of the original (an `unwrap` of a
missing last instruction or of overflowing branch-target arithmetic). -/
def resolve_step (sections : List InstructionSection) (i : Nat) :
    Option (List InstructionSection) :=
  match sections.get? i with
  | none => none
  | some s =>
    match s.branch_type with
    | none =>
      -- no branch, just fallthrough if not the last section
      if i + 1 < sections.length then
        some (add_branch_at sections i (id_at sections (i + 1)))
      else some sections
    | some BranchType.Conditional =>
      match s.instructions.getLast? with
      | none => none
      | some (_, lastInst) =>
        match lastInst with
        | .B _ _ _ imm =>
          match checked_add_signed s.endAddr imm with
          | none => none    -- `checked_add_signed(..).unwrap()` panics
          | some destination =>
            let sections :=
              match find_section sections destination with
              | some target => add_branch_at sections i (id_at sections target)
              | none => sections
            if i + 1 < sections.length then
              some (add_branch_at sections i (id_at sections (i + 1)))
            else some sections
        | _ => some sections
    | some BranchType.Unconditional =>
      match s.instructions.getLast? with
      | none => none
      | some (_, lastInst) =>
        match lastInst with
        | .J _ _ imm =>
          let destination := (checked_add_signed s.endAddr imm).getD 0
          match find_section sections destination with
          | some target => some (add_branch_at sections i (id_at sections target))
          | none =>
            if i + 1 < sections.length then
              some (add_branch_at sections i (id_at sections (i + 1)))
            else some sections
        | _ => some sections

/-- The index loop of `resolve_jumps` (`remaining` sections left to
process, starting at position `i`). -/
def resolve_go : Nat → Nat → List InstructionSection →
    Option (List InstructionSection)
  | 0, _, sections => some sections
  | remaining + 1, i, sections =>
    match resolve_step sections i with
    | none => none
    | some sections => resolve_go remaining (i + 1) sections

/-- Source `resolve_jumps` from decompilation.rs: compute successor edges for
each section.  `none` models a panic. -/
def resolve_jumps (sections : List InstructionSection) :
    Option (List InstructionSection) :=
  resolve_go sections.length 0 sections

/-- Source `generate_sections` from decompilation.rs: blocks, resolved jumps,
collected into a map keyed by section id. -/
def generate_sections (instructions : List (Nat × InstructionType)) :
    Option (List (Nat × InstructionSection)) :=
  (resolve_jumps (make_blocks instructions)).map
    (fun sections => sections.foldl (fun g s => mapInsert s.id s g) [])

/-! ### Abstract graph (`AbstractSection`, `AbstractGraph`) -/

/-- Source `AbstractSectionType` from decompilation.rs. -/
inductive AbstractSectionType where
  | Unbranching
  | If
  | IfElse
  | SingleWhile
  | While
  | DoWhile
  | Break
  | Continue
  | Acyclic
deriving DecidableEq, Repr

/-- Source `AbstractSection` from decompilation.rs: a region kind, the index of
the concrete section it represents, and nested subsections. -/
inductive AbstractSection where
  | mk (section_type : AbstractSectionType) (concrete_section : Nat)
      (abstract_sections : List AbstractSection)

/-- Source `AbstractSection::get_type`. -/
def AbstractSection.get_type : AbstractSection → AbstractSectionType
  | .mk t _ _ => t

/-- Source `AbstractSection::get_id` (the index of the concrete section). -/
def AbstractSection.get_id : AbstractSection → Nat
  | .mk _ c _ => c

/-- Source `AbstractSection::get_nested_sections`. -/
def AbstractSection.get_nested_sections : AbstractSection → List AbstractSection
  | .mk _ _ ns => ns

/-- Source `AbstractSection::nest_section`. -/
def AbstractSection.nest_section : AbstractSection → AbstractSection → AbstractSection
  | .mk t c ns, child => .mk t c (ns ++ [child])

/-- Source `AbstractSection::set_type`: `Unbranching` is the default and never
overwrites an existing type. -/
def AbstractSection.set_type : AbstractSection → AbstractSectionType → AbstractSection
  | .mk t c ns, t' =>
    if t' = AbstractSectionType.Unbranching then .mk t c ns else .mk t' c ns

/-- Source `AbstractGraph` from decompilation.rs: vertex map plus edge list. -/
structure AbstractGraph where
  vertices : List (Nat × AbstractSection)
  edges : List (Nat × Nat)

/-- Source `AbstractGraph::get_no_vertices`. -/
def AbstractGraph.get_no_vertices (g : AbstractGraph) : Nat := g.vertices.length

/-- Source `get_edges(index, Direction::Outgoing)`: indices of the edges whose
source is `index`. -/
def outgoing_edges (edges : List (Nat × Nat)) (index : Nat) : List Nat :=
  (edges.enum.filter (fun p => p.2.1 = index)).map (fun p => p.1)

/-- Source `get_edges(index, Direction::Incoming)`: indices of the edges whose
destination is `index`. -/
def incoming_edges (edges : List (Nat × Nat)) (index : Nat) : List Nat :=
  (edges.enum.filter (fun p => p.2.2 = index)).map (fun p => p.1)

/-- Source `AbstractGraph::contains_edge`. -/
def AbstractGraph.contains_edge (g : AbstractGraph) (src dst : Nat) : Prop :=
  (src, dst) ∈ g.edges

instance (g : AbstractGraph) (s d : Nat) : Decidable (g.contains_edge s d) :=
  inferInstanceAs (Decidable (_ ∈ _))

/-- The edge stored at index `idx` (indices handed to this are in range). -/
def edge_at (edges : List (Nat × Nat)) (idx : Nat) : Nat × Nat :=
  edges.getD idx (0, 0)

/-- Source `Vec::dedup`: collapse runs of consecutive equal edges. -/
def dedup_consecutive : List (Nat × Nat) → List (Nat × Nat)
  | [] => []
  | [e] => [e]
  | e :: e' :: rest =>
    if e = e' then dedup_consecutive (e' :: rest)
    else e :: dedup_consecutive (e' :: rest)

/-- Source `AbstractGraph::reduce_node` from decompilation.rs: absorb vertex
`id` into `parent_id` as a nested subsection, retarget its outgoing
edges, drop the edge from the parent to it and any parent self-edge, and
deduplicate.  `none` models the panics of the two `unwrap`s (vertex or
parent missing from the map). -/
def reduce_node (g : AbstractGraph) (id parent_id : Nat)
    (section_type : AbstractSectionType) : Option AbstractGraph :=
  match mapLookup g.vertices id with
  | none => none
  | some to_reduce =>
    match mapLookup (mapRemove g.vertices id) parent_id with
    | none => none
    | some _ =>
      some { vertices := mapAdjust (mapRemove g.vertices id) parent_id
               (fun parent => (parent.nest_section to_reduce).set_type section_type),
             edges := dedup_consecutive
               (((g.edges.map
                    (fun e => if e.1 = id then (parent_id, e.2) else e)).erase
                  (parent_id, id)).erase (parent_id, parent_id)) }

/-! ### Reverse-inorder traversal (`ReverseInorderIterator`) -/

/-- The iterator state: the DFS stack (head is the back of the
`VecDeque`), the visited set, and the pending traversal order (head is
the front of the `VecDeque`). -/
structure TraversalState where
  stack : List Nat
  visited : List Nat
  order : List Nat

/-- Source `ReverseInorderIterator::traverse_node`.  The recursion consumes
fuel; any fuel at least the number of nodes reachable from the start
make the function agree with the (always terminating) original. -/
def traverse_node (g : AbstractGraph) : Nat → Nat → TraversalState → TraversalState
  | 0, _, st => st
  | fuel + 1, node, st =>
    if node ∈ st.visited then st
    else
      let st := { st with visited := node :: st.visited }
      let idxs := (outgoing_edges g.edges node).reverse
      let st := idxs.foldl
        (fun acc idx =>
          let child := (edge_at g.edges idx).2
          let acc :=
            if child ∈ acc.visited then acc
            else { acc with stack := child :: acc.stack }
          traverse_node g fuel child acc)
        st
      { st with order := node :: st.order }

/-- Source `Iterator::next` for `ReverseInorderIterator`: pop the back of the
stack, traverse from it, and pop the back of the traversal order. -/
def traverse_next (g : AbstractGraph) (fuel : Nat) (st : TraversalState) :
    Option (Nat × TraversalState) :=
  match st.stack with
  | [] => none
  | node :: rest =>
    let st := traverse_node g fuel node { st with stack := rest }
    match st.order.getLast? with
    | none => none
    | some v => some (v, { st with order := st.order.dropLast })

/-- Collect the iterator into a list, stopping at the first `None`
exactly as a Rust `for` loop does. -/
def traverse_collect (g : AbstractGraph) (fuel : Nat) :
    Nat → TraversalState → List Nat
  | 0, _ => []
  | n + 1, st =>
    match traverse_next g fuel st with
    | none => []
    | some (v, st) => v :: traverse_collect g fuel n st

/-- Fuel that dominates both the recursion depth of `traverse_node` and
the number of `next` calls on any graph. -/
def traversal_fuel (g : AbstractGraph) : Nat :=
  g.edges.length + g.vertices.length + 2

/-- Source `AbstractGraph::traverse`: the full reverse-inorder vertex sequence
(the root 0 is pushed first, as in `ReverseInorderIterator::new`). -/
def AbstractGraph.traverse (g : AbstractGraph) : List Nat :=
  traverse_collect g (traversal_fuel g) (traversal_fuel g) ⟨[0], [], []⟩

/-! ### The four reduction functions -/

/-- The candidate loop of `r_sequential_blocks`. -/
def r_sequential_go (g : AbstractGraph) : List Nat → Option (AbstractGraph × Bool)
  | [] => some (g, false)
  | a_section :: rest =>
    let branches := outgoing_edges g.edges a_section
    if branches.length = 1 then
      let child := (edge_at g.edges (branches.headD 0)).2
      let no_children := (outgoing_edges g.edges child).length
      let no_parents := (incoming_edges g.edges child).length
      if no_parents = 1 ∧ no_children ≤ 1 then
        (reduce_node g child a_section AbstractSectionType.Unbranching).map
          (fun g => (g, true))
      else r_sequential_go g rest
    else r_sequential_go g rest

/-- Source `r_sequential_blocks` from decompilation.rs. -/
def r_sequential_blocks (g : AbstractGraph) : Option (AbstractGraph × Bool) :=
  r_sequential_go g g.traverse

/-- The candidate loop of `r_single_block_while`. -/
def r_single_while_go (g : AbstractGraph) : List Nat → Option (AbstractGraph × Bool)
  | [] => some (g, false)
  | a_section :: rest =>
    let children := outgoing_edges g.edges a_section
    if children.length = 2 then
      let block_1 := (edge_at g.edges (children.headD 0)).2
      let block_2 := (edge_at g.edges (children.getLastD 0)).2
      let no_parents_1 := (incoming_edges g.edges block_1).length
      let no_parents_2 := (incoming_edges g.edges block_2).length
      let no_children_1 := (outgoing_edges g.edges block_1).length
      let no_children_2 := (outgoing_edges g.edges block_2).length
      if no_parents_1 = 1 ∧ no_children_1 = 1 ∧ g.contains_edge block_1 a_section then
        (reduce_node g block_1 a_section AbstractSectionType.SingleWhile).map
          (fun g => (g, true))
      else if no_parents_2 = 1 ∧ no_children_2 = 1 ∧ g.contains_edge block_2 a_section then
        (reduce_node g block_2 a_section AbstractSectionType.SingleWhile).map
          (fun g => (g, true))
      else r_single_while_go g rest
    else r_single_while_go g rest

/-- Source `r_single_block_while` from decompilation.rs. -/
def r_single_block_while (g : AbstractGraph) : Option (AbstractGraph × Bool) :=
  r_single_while_go g g.traverse

/-- The candidate loop of `r_if_then`. -/
def r_if_then_go (g : AbstractGraph) : List Nat → Option (AbstractGraph × Bool)
  | [] => some (g, false)
  | a_section :: rest =>
    let children := outgoing_edges g.edges a_section
    if children.length = 2 then
      let block_1 := (edge_at g.edges (children.headD 0)).2
      let block_2 := (edge_at g.edges (children.getLastD 0)).2
      let no_parents_1 := (incoming_edges g.edges block_1).length
      let no_parents_2 := (incoming_edges g.edges block_2).length
      let no_children_1 := (outgoing_edges g.edges block_1).length
      let no_children_2 := (outgoing_edges g.edges block_2).length
      if no_parents_1 = 1 ∧ no_children_1 ≤ 1 ∧
          g.contains_edge block_1 block_2 ∧ block_2 ≠ a_section then
        (reduce_node g block_1 a_section AbstractSectionType.If).map
          (fun g => (g, true))
      else if no_parents_2 = 1 ∧ no_children_2 ≤ 1 ∧
          g.contains_edge block_2 block_1 ∧ block_1 ≠ a_section then
        (reduce_node g block_2 a_section AbstractSectionType.If).map
          (fun g => (g, true))
      else r_if_then_go g rest
    else r_if_then_go g rest

/-- Source `r_if_then` from decompilation.rs. -/
def r_if_then (g : AbstractGraph) : Option (AbstractGraph × Bool) :=
  r_if_then_go g g.traverse

/-- The candidate loop of `r_if_else`.  The guard reproduces the Rust
expression verbatim, including its operator precedence: the incoming
edge conditions bind to the first disjunct only. -/
def r_if_else_go (g : AbstractGraph) : List Nat → Option (AbstractGraph × Bool)
  | [] => some (g, false)
  | a_section :: rest =>
    let children := outgoing_edges g.edges a_section
    if children.length = 2 then
      let block_1 := (edge_at g.edges (children.headD 0)).2
      let block_2 := (edge_at g.edges (children.getLastD 0)).2
      let no_parents_1 := (incoming_edges g.edges block_1).length
      let no_parents_2 := (incoming_edges g.edges block_2).length
      let children_1 := outgoing_edges g.edges block_1
      let no_children_1 := children_1.length
      let children_2 := outgoing_edges g.edges block_2
      let no_children_2 := children_2.length
      if (no_parents_1 = 1 ∧ no_parents_2 = 1 ∧
            no_children_1 = 0 ∧ no_children_2 = 0) ∨
         (no_children_1 = 1 ∧ no_children_2 = 1 ∧
            (edge_at g.edges (children_1.headD 0)).2 =
              (edge_at g.edges (children_2.headD 0)).2) then
        match reduce_node g block_1 a_section AbstractSectionType.IfElse with
        | none => none
        | some g1 =>
          (reduce_node g1 block_2 a_section AbstractSectionType.IfElse).map
            (fun g => (g, true))
      else r_if_else_go g rest
    else r_if_else_go g rest

/-- Source `r_if_else` from decompilation.rs. -/
def r_if_else (g : AbstractGraph) : Option (AbstractGraph × Bool) :=
  r_if_else_go g g.traverse

/-! ### The iterated reduction loop -/

/-- One iteration of the `while processing` body shared by
`iterated_cfg_reduction` and the `test_iterated_reduction` tests: the
four reductions are attempted in order and short-circuit at the first
success. -/
def reduction_pass (g : AbstractGraph) : Option (AbstractGraph × Bool) :=
  match r_sequential_blocks g with
  | none => none
  | some (g, true) => some (g, true)
  | some (g, false) =>
    match r_single_block_while g with
    | none => none
    | some (g, true) => some (g, true)
    | some (g, false) =>
      match r_if_then g with
      | none => none
      | some (g, true) => some (g, true)
      | some (g, false) => r_if_else g

/-- The `while processing` loop, counting successful rewrites and loop
iterations (the `count` of the tests is the iteration count, which includes
the final pass in which nothing fires). -/
def reduction_loop : Nat → AbstractGraph → Nat → Nat →
    Option (AbstractGraph × Nat × Nat)
  | 0, _, _, _ => none
  | fuel + 1, g, rewrites, iterations =>
    match reduction_pass g with
    | none => none
    | some (g, true) => reduction_loop fuel g (rewrites + 1) (iterations + 1)
    | some (g, false) => some (g, rewrites, iterations + 1)

/-- Run the iterated reduction to quiescence, returning the final graph,
the number of successful rewrites, and the number of loop iterations. -/
def run_reduction (g : AbstractGraph) : Option (AbstractGraph × Nat × Nat) :=
  reduction_loop (g.get_no_vertices + 2) g 0 0

/-! ### Pseudocode emission (`high_level_conversion`, `convert_section`) -/

/-- Modelled from the spec: `InstructionType::get_rd` is called by the
emitter but missing from the provided sources; following the
operand conventions of the specification it returns the destination register of the variants
that carry one. -/
def InstructionType.get_rd : InstructionType → ABIRegister
  | .R _ rd _ _ => rd
  | .I _ rd _ _ => rd
  | .U _ rd _ => rd
  | .J _ rd _ => rd
  | _ => .Unknown

/-- Modelled from the spec: `InstructionType::get_rs1` (missing from the
provided sources); the first source register of the variants carrying one. -/
def InstructionType.get_rs1 : InstructionType → ABIRegister
  | .R _ _ rs1 _ => rs1
  | .I _ _ rs1 _ => rs1
  | .S _ rs1 _ _ => rs1
  | .B _ rs1 _ _ => rs1
  | _ => .Unknown

/-- Modelled from the spec: `InstructionType::get_rs2` (missing from the
provided sources); the second source register of the variants carrying one. -/
def InstructionType.get_rs2 : InstructionType → ABIRegister
  | .R _ _ _ rs2 => rs2
  | .S _ _ rs2 _ => rs2
  | .B _ _ rs2 _ => rs2
  | _ => .Unknown

/-- Modelled from the spec: `InstructionType::get_imm` (missing from the
provided sources); the immediate of the variants carrying one, as the
integer the instruction encodes. -/
def InstructionType.get_imm : InstructionType → Int
  | .I _ _ _ imm => (imm : Int)
  | .S _ _ _ imm => (imm : Int)
  | .B _ _ _ imm => imm
  | .U _ _ imm => (imm : Int)
  | .J _ _ imm => imm
  | .R _ _ _ _ => 0

/-- Source `condition` from decompilation.rs: lower a branch instruction to a
comparison string. -/
def condition (inst : InstructionType) : Option String :=
  let rs1 := inst.get_rs1.name
  let rs2 := inst.get_rs2.name
  match inst.get_name with
  | "beq" => some (rs1 ++ " == " ++ rs2)
  | "bne" => some (rs1 ++ " != " ++ rs2)
  | "blt" => some (rs1 ++ " < " ++ rs2)
  | "bltu" => some (rs1 ++ " < " ++ rs2)
  | "bgt" => some (rs1 ++ " > " ++ rs2)
  | "bgtu" => some (rs1 ++ " > " ++ rs2)
  | "ble" => some (rs1 ++ " <= " ++ rs2)
  | "bleu" => some (rs1 ++ " <= " ++ rs2)
  | "bge" => some (rs1 ++ " >= " ++ rs2)
  | "bgeu" => some (rs1 ++ " >= " ++ rs2)
  | _ => none

/-- Source `operator` from decompilation.rs: lower an instruction to an
assignment string when a higher-level form is known. -/
def operator (inst : InstructionType) : Option String :=
  let rd := inst.get_rd.name
  let rs1 := inst.get_rs1.name
  let rs2 := inst.get_rs2.name
  let imm := toString inst.get_imm
  match inst.get_name with
  | "lb" => some (rd ++ " = " ++ rs1)
  | "lh" => some (rd ++ " = " ++ rs1)
  | "lw" => some (rd ++ " = " ++ rs1)
  | "lbu" => some (rd ++ " = " ++ rs1)
  | "lhu" => some (rd ++ " = " ++ rs1)
  | "ld" => some (rd ++ " = " ++ rs1)
  | "lwu" => some (rd ++ " = " ++ rs1)
  | "lui" => some (rd ++ " = " ++ imm)
  | "addi" => some (rd ++ " = " ++ rs1 ++ " + " ++ imm)
  | "addiw" => some (rd ++ " = " ++ rs1 ++ " + " ++ imm)
  | "add" => some (rd ++ " = " ++ rs1 ++ " + " ++ rs2)
  | "addw" => some (rd ++ " = " ++ rs1 ++ " + " ++ rs2)
  | "subi" => some (rd ++ " = " ++ rs1 ++ " - " ++ imm)
  | "subiw" => some (rd ++ " = " ++ rs1 ++ " - " ++ imm)
  | "sub" => some (rd ++ " = " ++ rs1 ++ " - " ++ rs2)
  | "subw" => some (rd ++ " = " ++ rs1 ++ " - " ++ rs2)
  | "ori" => some (rd ++ " = " ++ rs1 ++ " | " ++ imm)
  | "or" => some (rd ++ " = " ++ rs1 ++ " | " ++ rs2)
  | "xori" => some (rd ++ " = " ++ rs1 ++ " | " ++ imm)
  | "xor" => some (rd ++ " = " ++ rs1 ++ " | " ++ rs2)
  | "mul" => some (rd ++ " = " ++ rs1 ++ " * " ++ rs2)
  | "mulh" => some (rd ++ " = " ++ rs1 ++ " * " ++ rs2)
  | "mulhsu" => some (rd ++ " = " ++ rs1 ++ " * " ++ rs2)
  | "mulhu" => some (rd ++ " = " ++ rs1 ++ " * " ++ rs2)
  | "mulw" => some (rd ++ " = " ++ rs1 ++ " * " ++ rs2)
  | "div" => some (rd ++ " = " ++ rs1 ++ " / " ++ rs2)
  | "divu" => some (rd ++ " = " ++ rs1 ++ " / " ++ rs2)
  | "divw" => some (rd ++ " = " ++ rs1 ++ " / " ++ rs2)
  | "divuw" => some (rd ++ " = " ++ rs1 ++ " / " ++ rs2)
  | "remw" => some (rd ++ " = " ++ rs1 ++ " % " ++ rs2)
  | "remuw" => some (rd ++ " = " ++ rs1 ++ " % " ++ rs2)
  | _ => none

/-- The `indent!` macro: `n` tab characters. -/
def indent_tabs (n : Nat) : String := String.mk (List.replicate n '\t')

/-- Source `convert_instruction` from decompilation.rs. -/
def convert_instruction (inst : InstructionType) (indent : Nat) : String :=
  match operator inst with
  | some op => indent_tabs indent ++ op ++ ";"
  | none =>
    if inst.get_name = "syscall" then indent_tabs indent ++ "ecall()" ++ ";"
    else indent_tabs indent ++ inst.render ++ ";"

/-- The lowered lines for all instructions of a block except the last
(the `index < count - 1` loop of `convert_section`). -/
def lines_except_last (instructions : List (Nat × InstructionType))
    (indent : Nat) : List String :=
  instructions.dropLast.map (fun p => convert_instruction p.2 indent)

/-- The trailing `GOTO section N;` lines of `convert_section`, one per
residual outgoing edge of the vertex. -/
def goto_lines (g : AbstractGraph) (id indent : Nat) : List String :=
  (outgoing_edges g.edges id).map
    (fun idx => indent_tabs indent ++ "GOTO section " ++
      toString (edge_at g.edges idx).2 ++ ";")

/-- Source `convert_section` from decompilation.rs: emit one abstract section
(and, recursively, its nested subsections) as pseudocode lines,
threading the output list and the indent level.  `none` models a panic
(`unwrap` of a missing concrete section, of an empty instruction map or
of a missing nested subsection, or the `unimplemented!` arm). -/
def convert_section (fuel : Nat) (s : AbstractSection) (output : List String)
    (abstract_map : AbstractGraph)
    (concrete_sections : List (Nat × InstructionSection)) (indent : Nat) :
    Option (List String × Nat) :=
  match fuel with
  | 0 => none
  | fuel + 1 =>
    match mapLookup concrete_sections s.get_id with
    | none => none
    | some concrete =>
      let instructions := concrete.instructions
      match instructions.getLast? with
      | none => none
      | some (_, last_instruction) =>
        let emitted :=
          match s.get_type with
          | AbstractSectionType.If =>
            let output := output ++ lines_except_last instructions indent
            let output := output ++ [indent_tabs indent ++ "if (" ++
              ((condition last_instruction).getD "true") ++ ") \x7b"]
            match s.get_nested_sections.head? with
            | none => none
            | some first =>
              match convert_section fuel first output abstract_map
                  concrete_sections (indent + 1) with
              | none => none
              | some (output, _) =>
                let output := output ++ [indent_tabs indent ++ "\x7d"]
                (s.get_nested_sections.drop 1).foldl
                  (fun acc sec =>
                    match acc with
                    | none => none
                    | some (output, ind) =>
                      convert_section fuel sec output abstract_map
                        concrete_sections ind)
                  (some (output, indent))
          | AbstractSectionType.IfElse =>
            let output := output ++ lines_except_last instructions indent
            let output := output ++ [indent_tabs indent ++ "if (" ++
              ((condition last_instruction).getD "true") ++ ") \x7b"]
            match s.get_nested_sections.head? with
            | none => none
            | some first =>
              match convert_section fuel first output abstract_map
                  concrete_sections (indent + 1) with
              | none => none
              | some (output, _) =>
                let output := output ++ [indent_tabs indent ++ "\x7d"]
                let output := output ++ [indent_tabs indent ++ "else \x7b"]
                match s.get_nested_sections.get? 1 with
                | none => none
                | some second =>
                  match convert_section fuel second output abstract_map
                      concrete_sections (indent + 1) with
                  | none => none
                  | some (output, _) =>
                    let output := output ++ [indent_tabs indent ++ "\x7d"]
                    (s.get_nested_sections.drop 2).foldl
                      (fun acc sec =>
                        match acc with
                        | none => none
                        | some (output, ind) =>
                          convert_section fuel sec output abstract_map
                            concrete_sections ind)
                      (some (output, indent))
          | AbstractSectionType.SingleWhile =>
            let output := output ++ lines_except_last instructions indent
            let output := output ++ [indent_tabs indent ++ "while (" ++
              ((condition last_instruction).getD "true") ++ ") \x7b"]
            match s.get_nested_sections.foldl
                (fun acc sec =>
                  match acc with
                  | none => none
                  | some (output, ind) =>
                    convert_section fuel sec output abstract_map
                      concrete_sections ind)
                (some (output, indent + 1)) with
            | none => none
            | some (output, _) =>
              some (output ++ [indent_tabs indent ++ "\x7d"], indent)
          | AbstractSectionType.Unbranching =>
            let output := output ++ lines_except_last instructions indent
            s.get_nested_sections.foldl
              (fun acc sec =>
                match acc with
                | none => none
                | some (output, ind) =>
                  convert_section fuel sec output abstract_map
                    concrete_sections ind)
              (some (output, indent))
          | _ => none
        match emitted with
        | none => none
        | some (output, indent) =>
          some (output ++ goto_lines abstract_map s.get_id indent, indent)

/-- Source `high_level_conversion` from decompilation.rs: the pseudocode
listing for a concrete section map and its reduced abstract graph. -/
def high_level_conversion (concrete_sections : List (Nat × InstructionSection))
    (abstract_sections : AbstractGraph) : Option (List String) :=
  let init : Option (List String × Nat) := some (["void main() \x7b"], 1)
  match abstract_sections.vertices.foldl
      (fun acc p =>
        match acc with
        | none => none
        | some (output, ind) =>
          convert_section 1000 p.2 output abstract_sections
            concrete_sections ind)
      init with
  | none => none
  | some (output, _) => some (output ++ ["\x7d"])

/-! ### Concrete fixtures

`create_fibb_graph` and `create_test_graph` are the graph constructors
of the unit tests in decompilation.rs; the further fixtures are concrete
inputs used to instantiate or refute the claims. -/

/-- Source `create_fibb_graph` from the tests of decompilation.rs. -/
def create_fibb_graph : AbstractGraph :=
  { vertices := [
      (0, .mk .Unbranching 0 []), (1, .mk .Unbranching 1 []),
      (2, .mk .Unbranching 2 []), (3, .mk .Unbranching 3 []),
      (4, .mk .Unbranching 4 [])],
    edges := [(0, 4), (0, 1), (1, 2), (1, 4), (2, 3), (2, 4), (3, 2)] }

/-- Source `create_test_graph` from the tests of decompilation.rs: the
canonical 11-vertex graph (if-else at 1/2/3/4, if-then at 4/5/6,
single-while at 7/8, sequence at 9/10). -/
def create_test_graph : AbstractGraph :=
  { vertices := [
      (0, .mk .Unbranching 0 []), (1, .mk .Unbranching 1 []),
      (2, .mk .Unbranching 2 []), (3, .mk .Unbranching 3 []),
      (4, .mk .Unbranching 4 []), (5, .mk .Unbranching 5 []),
      (6, .mk .Unbranching 6 []), (7, .mk .Unbranching 7 []),
      (8, .mk .Unbranching 8 []), (9, .mk .Unbranching 9 []),
      (10, .mk .Unbranching 10 [])],
    edges := [(0, 1), (1, 2), (1, 3), (2, 4), (3, 4), (4, 5), (4, 6),
      (5, 6), (6, 7), (7, 8), (8, 7), (7, 9), (9, 10)] }

/-- A graph on which the if-else rewrite fires although one successor of
the pivot has two incoming edges: vertex 0 branches to 1 and 2, both
continue to 3, and the back path 3 to 4 to 1 gives vertex 1 a second
incoming edge. -/
def diamond_extra_parent_graph : AbstractGraph :=
  { vertices := [
      (0, .mk .Unbranching 0 []), (1, .mk .Unbranching 1 []),
      (2, .mk .Unbranching 2 []), (3, .mk .Unbranching 3 []),
      (4, .mk .Unbranching 4 [])],
    edges := [(0, 1), (0, 2), (1, 3), (2, 3), (3, 4), (4, 1)] }

/-- A two-vertex sequence graph, used to instantiate the reduction
lemmas at a concrete input. -/
def two_vertex_graph : AbstractGraph :=
  { vertices := [(0, .mk .Unbranching 0 []), (1, .mk .Unbranching 1 [])],
    edges := [(0, 1)] }

/-- The graph `two_vertex_graph` reduces to: vertex 1 nested inside
vertex 0, no edges left. -/
def one_vertex_graph : AbstractGraph :=
  { vertices := [(0, .mk .Unbranching 0 [.mk .Unbranching 1 []])],
    edges := [] }

/-- The decoded form of the word `0xFE928CE3`, that is
`beq t0, s1, -8`. -/
def beq_minus_eight : InstructionType := .B "beq" .t0 .s1 (-8)

/-- A one-instruction program whose conditional branch target
`end_address + imm = 4 + (-8)` overflows below zero. -/
def overflowing_branch_program : List (Nat × InstructionType) :=
  [(4, beq_minus_eight)]

/-- Concrete section map for the emission fixture: one block holding the
single instruction `sll a0, a1, a2` at address 4. -/
def single_sll_sections : List (Nat × InstructionSection) :=
  [(0, ⟨0, [(4, .R "sll" .a0 .a1 .a2)], [], none, 4, 4⟩)]

/-- Abstract graph for the emission fixture: one `Unbranching` vertex
mirroring block 0, no edges. -/
def single_sll_abstract : AbstractGraph :=
  { vertices := [(0, .mk .Unbranching 0 [])], edges := [] }

/-! ### Supporting lemmas -/

theorem length_mapRemove_lt {α : Type} (l : List (Nat × α)) (k : Nat) (v : α)
    (h : mapLookup l k = some v) : (mapRemove l k).length < l.length := by
  have hmem : ∃ p ∈ l, p.1 = k := by
    unfold mapLookup at h
    rcases Option.map_eq_some'.1 h with ⟨q, hq, _⟩
    have h2 := @List.find?_some _ (fun r => decide (r.1 = k)) q l hq
    exact ⟨q, List.mem_of_find?_eq_some hq, of_decide_eq_true h2⟩
  unfold mapRemove
  refine (List.length_filter_lt_length_iff_exists).2 ?_
  rcases hmem with ⟨p, hpl, hpk⟩
  exact ⟨p, hpl, by simp [hpk]⟩

theorem reduce_node_decreases (g : AbstractGraph) (id parent_id : Nat)
    (t : AbstractSectionType) (g' : AbstractGraph)
    (h : reduce_node g id parent_id t = some g') :
    g'.get_no_vertices < g.get_no_vertices := by
  unfold reduce_node at h
  split at h
  · exact absurd h (by simp)
  · rename_i to_reduce hlook
    split at h
    · exact absurd h (by simp)
    · rename_i parent hpar
      have hg' : g'.vertices = mapAdjust (mapRemove g.vertices id) parent_id
          (fun p => (p.nest_section to_reduce).set_type t) := by
        cases h.symm
        rfl
      have hlen : g'.get_no_vertices = (mapRemove g.vertices id).length := by
        rw [AbstractGraph.get_no_vertices, hg', mapAdjust, List.length_map]
      rw [hlen]
      exact length_mapRemove_lt _ _ _ hlook


theorem r_sequential_go_true (l : List Nat) (g g' : AbstractGraph)
    (h : r_sequential_go g l = some (g', true)) :
    g'.get_no_vertices < g.get_no_vertices := by
  induction l with
  | nil => simp [r_sequential_go] at h
  | cons a rest ih =>
    unfold r_sequential_go at h
    dsimp only at h
    split at h
    · split at h
      · rcases Option.map_eq_some'.1 h with ⟨g1, hg1, heq⟩
        cases heq
        exact reduce_node_decreases _ _ _ _ _ hg1
      · exact ih h
    · exact ih h

theorem r_sequential_go_false (l : List Nat) (g g' : AbstractGraph)
    (h : r_sequential_go g l = some (g', false)) : g' = g := by
  induction l with
  | nil =>
    simp [r_sequential_go] at h
    exact h.symm
  | cons a rest ih =>
    unfold r_sequential_go at h
    dsimp only at h
    split at h
    · split at h
      · rcases Option.map_eq_some'.1 h with ⟨g1, _, heq⟩
        simp at heq
      · exact ih h
    · exact ih h


theorem r_single_while_go_true (l : List Nat) (g g' : AbstractGraph)
    (h : r_single_while_go g l = some (g', true)) :
    g'.get_no_vertices < g.get_no_vertices := by
  induction l with
  | nil => simp [r_single_while_go] at h
  | cons a rest ih =>
    unfold r_single_while_go at h
    dsimp only at h
    split at h
    · split at h
      · rcases Option.map_eq_some'.1 h with ⟨g1, hg1, heq⟩
        cases heq
        exact reduce_node_decreases _ _ _ _ _ hg1
      · split at h
        · rcases Option.map_eq_some'.1 h with ⟨g1, hg1, heq⟩
          cases heq
          exact reduce_node_decreases _ _ _ _ _ hg1
        · exact ih h
    · exact ih h

theorem r_single_while_go_false (l : List Nat) (g g' : AbstractGraph)
    (h : r_single_while_go g l = some (g', false)) : g' = g := by
  induction l with
  | nil =>
    simp [r_single_while_go] at h
    exact h.symm
  | cons a rest ih =>
    unfold r_single_while_go at h
    dsimp only at h
    split at h
    · split at h
      · rcases Option.map_eq_some'.1 h with ⟨g1, _, heq⟩
        simp at heq
      · split at h
        · rcases Option.map_eq_some'.1 h with ⟨g1, _, heq⟩
          simp at heq
        · exact ih h
    · exact ih h

theorem r_if_then_go_true (l : List Nat) (g g' : AbstractGraph)
    (h : r_if_then_go g l = some (g', true)) :
    g'.get_no_vertices < g.get_no_vertices := by
  induction l with
  | nil => simp [r_if_then_go] at h
  | cons a rest ih =>
    unfold r_if_then_go at h
    dsimp only at h
    split at h
    · split at h
      · rcases Option.map_eq_some'.1 h with ⟨g1, hg1, heq⟩
        cases heq
        exact reduce_node_decreases _ _ _ _ _ hg1
      · split at h
        · rcases Option.map_eq_some'.1 h with ⟨g1, hg1, heq⟩
          cases heq
          exact reduce_node_decreases _ _ _ _ _ hg1
        · exact ih h
    · exact ih h

theorem r_if_then_go_false (l : List Nat) (g g' : AbstractGraph)
    (h : r_if_then_go g l = some (g', false)) : g' = g := by
  induction l with
  | nil =>
    simp [r_if_then_go] at h
    exact h.symm
  | cons a rest ih =>
    unfold r_if_then_go at h
    dsimp only at h
    split at h
    · split at h
      · rcases Option.map_eq_some'.1 h with ⟨g1, _, heq⟩
        simp at heq
      · split at h
        · rcases Option.map_eq_some'.1 h with ⟨g1, _, heq⟩
          simp at heq
        · exact ih h
    · exact ih h

theorem r_if_else_go_true (l : List Nat) (g g' : AbstractGraph)
    (h : r_if_else_go g l = some (g', true)) :
    g'.get_no_vertices < g.get_no_vertices := by
  induction l with
  | nil => simp [r_if_else_go] at h
  | cons a rest ih =>
    unfold r_if_else_go at h
    dsimp only at h
    split at h
    · split at h
      · split at h
        · exact absurd h (by simp)
        · rename_i g1 hg1
          rcases Option.map_eq_some'.1 h with ⟨g2, hg2, heq⟩
          cases heq
          exact lt_trans (reduce_node_decreases _ _ _ _ _ hg2)
            (reduce_node_decreases _ _ _ _ _ hg1)
      · exact ih h
    · exact ih h

theorem r_if_else_go_false (l : List Nat) (g g' : AbstractGraph)
    (h : r_if_else_go g l = some (g', false)) : g' = g := by
  induction l with
  | nil =>
    simp [r_if_else_go] at h
    exact h.symm
  | cons a rest ih =>
    unfold r_if_else_go at h
    dsimp only at h
    split at h
    · split at h
      · split at h
        · exact absurd h (by simp)
        · rcases Option.map_eq_some'.1 h with ⟨g2, _, heq⟩
          simp at heq
      · exact ih h
    · exact ih h

/-- A successful `reduction_pass` strictly decreases the vertex count. -/
theorem reduction_pass_true (g g' : AbstractGraph)
    (h : reduction_pass g = some (g', true)) :
    g'.get_no_vertices < g.get_no_vertices := by
  unfold reduction_pass at h
  split at h
  · exact absurd h (by simp)
  · rename_i h1
    cases h
    exact r_sequential_go_true _ _ _ h1
  · rename_i g1 h1
    have hg1 : g1 = g := r_sequential_go_false _ _ _ h1
    subst hg1
    split at h
    · exact absurd h (by simp)
    · rename_i h2
      cases h
      exact r_single_while_go_true _ _ _ h2
    · rename_i g2 h2
      have hg2 : g2 = g1 := r_single_while_go_false _ _ _ h2
      subst hg2
      split at h
      · exact absurd h (by simp)
      · rename_i h3
        cases h
        exact r_if_then_go_true _ _ _ h3
      · rename_i g3 h3
        have hg3 : g3 = g2 := r_if_then_go_false _ _ _ h3
        subst hg3
        exact r_if_else_go_true _ _ _ h

theorem reduction_loop_le (fuel : Nat) :
    ∀ (g g' : AbstractGraph) (s0 i0 s i : Nat),
      reduction_loop fuel g s0 i0 = some (g', s, i) →
      s ≤ s0 + g.get_no_vertices := by
  induction fuel with
  | zero => intro g g' s0 i0 s i h; simp [reduction_loop] at h
  | succ fuel ih =>
    intro g g' s0 i0 s i h
    unfold reduction_loop at h
    split at h
    · exact absurd h (by simp)
    · rename_i g1 h1
      have hlt := reduction_pass_true _ _ h1
      have := ih g1 g' (s0 + 1) (i0 + 1) s i h
      omega
    · rename_i g1 h1
      cases h
      omega


/-- Number of branch instructions in a program. -/
def branch_count (m : List (Nat × InstructionType)) : Nat :=
  m.countP (fun p => (branch_kind p.2).isSome)

theorem make_blocks_go_length (l : List (Nat × InstructionType)) :
    ∀ curr sid secs, 1 ≤ (make_blocks_go curr sid secs l).length := by
  induction l with
  | nil => intro curr sid secs; simp [make_blocks_go]
  | cons p rest ih =>
    intro curr sid secs
    unfold make_blocks_go
    split
    · exact ih _ _ _
    · exact ih _ _ _

theorem make_blocks_go_last (l : List (Nat × InstructionType)) :
    ∀ curr sid secs p, 1 ≤ sid → l.getLast? = some p →
      (branch_kind p.2).isSome →
      (make_blocks_go curr sid secs l).getLast? =
        some (InstructionSection.new (sid - 1 + branch_count l)) := by
  induction l with
  | nil => intro _ _ _ _ _ h; simp at h
  | cons q rest ih =>
    intro curr sid secs p hsid hlast hbr
    cases rest with
    | nil =>
      have hpq : q = p := by simpa using hlast
      subst hpq
      rcases Option.isSome_iff_exists.1 hbr with ⟨bt, hbt⟩
      unfold make_blocks_go
      rw [hbt]
      unfold make_blocks_go
      rw [List.getLast?_concat]
      have hbc : branch_count [q] = 1 := by
        simp [branch_count, List.countP_cons, hbt]
      rw [hbc]
      congr 1
      congr 1
      omega
    | cons q' rest' =>
      have hlast' : (q' :: rest').getLast? = some p := by
        rwa [List.getLast?_cons_cons] at hlast
      unfold make_blocks_go
      split
      · rename_i bt hbt
        rw [ih _ _ _ p (by omega) hlast' hbr]
        have : branch_count (q :: q' :: rest') = branch_count (q' :: rest') + 1 := by
          simp [branch_count, List.countP_cons, hbt]
        rw [this]
        congr 2
        omega
      · rename_i hbt
        rw [ih _ _ _ p hsid hlast' hbr]
        have : branch_count (q :: q' :: rest') = branch_count (q' :: rest') := by
          simp [branch_count, List.countP_cons, hbt]
        rw [this]


theorem id_push (s : InstructionSection) (a : Nat) (i : InstructionType) :
    (s.push a i).id = s.id := rfl

theorem id_set_branch_type (s : InstructionSection) (bt : BranchType) :
    (s.set_branch_type bt).id = s.id := rfl

theorem id_add_to_range (s : InstructionSection) (a : Nat) :
    (s.add_to_range a).id = s.id := by
  unfold InstructionSection.add_to_range
  dsimp only
  split <;> split <;> rfl

theorem make_blocks_go_ids (l : List (Nat × InstructionType)) :
    ∀ curr sid secs,
      secs.map (fun s => s.id) = List.range secs.length →
      curr.id = secs.length → sid = secs.length + 1 →
      (make_blocks_go curr sid secs l).map (fun s => s.id) =
        List.range (make_blocks_go curr sid secs l).length := by
  induction l with
  | nil =>
    intro curr sid secs hids hcurr hsid
    unfold make_blocks_go
    rw [List.map_append, List.length_append, hids]
    simp [hcurr, List.range_succ]
  | cons q rest ih =>
    intro curr sid secs hids hcurr hsid
    unfold make_blocks_go
    split
    · rename_i bt hbt
      apply ih
      · rw [List.map_append, hids, List.length_append]
        simp only [List.map_cons, List.map_nil]
        rw [id_add_to_range, id_push, id_set_branch_type, hcurr]
        simp [List.range_succ]
      · simp [InstructionSection.new, hsid]
      · simp [hsid]
    · apply ih
      · exact hids
      · rw [id_add_to_range, id_push, hcurr]
      · exact hsid

/-- The fields of a section other than its recorded branch targets. -/
def section_core (s : InstructionSection) :
    Nat × List (Nat × InstructionType) × Option BranchType × Nat × Nat :=
  (s.id, s.instructions, s.branch_type, s.start, s.endAddr)

theorem core_add_branch_at (secs : List InstructionSection) :
    ∀ i b, (add_branch_at secs i b).map section_core = secs.map section_core := by
  induction secs with
  | nil => intro i b; rfl
  | cons s rest ih =>
    intro i b
    cases i with
    | zero => simp [add_branch_at, section_core, InstructionSection.add_branch]
    | succ i => simp [add_branch_at, ih]

theorem core_resolve_step (secs out : List InstructionSection) (i : Nat)
    (h : resolve_step secs i = some out) :
    out.map section_core = secs.map section_core := by
  unfold resolve_step at h
  dsimp only at h
  repeat' split at h
  all_goals
    first
    | exact Option.noConfusion h
    | (cases h; simp [core_add_branch_at])

theorem core_resolve_go (rem : Nat) :
    ∀ i secs out, resolve_go rem i secs = some out →
      out.map section_core = secs.map section_core := by
  induction rem with
  | zero => intro i secs out h; cases h; rfl
  | succ rem ih =>
    intro i secs out h
    unfold resolve_go at h
    split at h
    · exact absurd h (by simp)
    · rename_i secs1 h1
      rw [ih _ _ _ h, core_resolve_step _ _ _ h1]


theorem mapInsert_append {α : Type} (k : Nat) (v : α) :
    ∀ acc : List (Nat × α), (∀ q ∈ acc, q.1 < k) →
      mapInsert k v acc = acc ++ [(k, v)] := by
  intro acc
  induction acc with
  | nil => intro _; rfl
  | cons q rest ih =>
    intro hlt
    rcases q with ⟨k', v'⟩
    have hq := hlt (k', v') (by simp)
    unfold mapInsert
    rw [if_neg (by omega), if_neg (by omega), ih (fun r hr => hlt r (by simp [hr]))]
    simp

theorem foldl_mapInsert (secs : List InstructionSection) :
    ∀ acc : List (Nat × InstructionSection),
      (∀ q ∈ acc, ∀ s ∈ secs, q.1 < s.id) →
      List.Pairwise (fun a b => a.id < b.id) secs →
      secs.foldl (fun g s => mapInsert s.id s g) acc =
        acc ++ secs.map (fun s => (s.id, s)) := by
  induction secs with
  | nil => intro acc _ _; simp
  | cons s rest ih =>
    intro acc hacc hpw
    rcases List.pairwise_cons.1 hpw with ⟨hhead, htail⟩
    simp only [List.foldl_cons]
    rw [mapInsert_append s.id s acc (fun q hq => hacc q hq s (by simp))]
    rw [ih (acc ++ [(s.id, s)]) ?_ htail]
    · simp
    · intro q hq t ht
      rcases List.mem_append.1 hq with hq | hq
      · exact hacc q hq t (by simp [ht])
      · simp at hq
        rw [hq]
        exact hhead t ht

theorem getLast?_list_map {α β : Type} (f : α → β) :
    ∀ l : List α, (l.map f).getLast? = l.getLast?.map f := by
  intro l
  induction l with
  | nil => rfl
  | cons a rest ih =>
    cases rest with
    | nil => rfl
    | cons b rest' =>
      simp only [List.map_cons, List.getLast?_cons_cons] at ih ⊢
      exact ih


/-! ### Further fixtures for the claim instantiations -/

/-- A one-instruction program whose conditional branch resolves without
overflow (the target address 8 lies outside every block, so the branch
falls through). -/
def simple_branch_program : List (Nat × InstructionType) :=
  [(4, .B "beq" .t0 .s1 4)]

/-- The section map `generate_sections` produces for
`simple_branch_program`. -/
def simple_branch_sections : List (Nat × InstructionSection) :=
  [(0, ⟨0, [(4, .B "beq" .t0 .s1 4)], [1], some .Conditional, 4, 4⟩),
   (1, ⟨1, [], [], none, 0, 0⟩)]

/-! ### The claims -/

/-- Claim C1: the spec asserts that an overflowing branch/jump target is
treated as "no such target" and that the pipeline never panics.  The
code disagrees: for the decoded program `beq t0, s1, -8` at address 4
(the word `0xFE928CE3`), the conditional-branch arm of `resolve_jumps`
computes `4 + (-8)` with `checked_add_signed(..).unwrap()`, whose
overflow makes it abort; the embedding returns `none` (a panic) instead
of a resolved section list. -/
theorem resolve_jumps_overflow_aborts :
    disassemble 0xFE928CE3 = some beq_minus_eight ∧
    resolve_jumps (make_blocks overflowing_branch_program) = none := by decide

/-- Claim C2: the spec says the B immediate is
`sign-extend(bits[31] bits[7] bits[30:25] bits[11:8] 0, 13)` and the J
immediate `sign-extend(bits[31] bits[19:12] bits[20] bits[30:21] 0, 21)`.
The decoder extracts those layouts but sign-extends them at 12 and 20
bits (`convert_to_signed(bimm, 12)`, `convert_to_signed(jimm, 20)`),
discarding bit 31: the branch word `0x80000063` and the jump word
`0x8000006F` decode with immediate `0` although the specified values are
`-4096` and `-1048576`. -/
theorem b_j_immediates_lose_sign_bit :
    disassemble 0x80000063 = some (.B "beq" .zero .zero 0) ∧
    spec_b_imm 0x80000063 = -4096 ∧
    disassemble 0x8000006F = some (.J "jal" .zero 0) ∧
    spec_j_imm 0x8000006F = -1048576 := by decide

/-- Claim C3, counterexample: the decoded I and S immediates are not
sign-extended.  The word `0xFFF02083` (`lw ra, -1(zero)`) decodes with
immediate `4095`, not the specified `sign-extend(0xFFF, 12) = -1`;
likewise the store word `0xFE002FA3`. -/
theorem i_s_immediates_not_sign_extended_cex :
    disassemble 0xFFF02083 = some (.I "lw" .ra .zero 4095) ∧
    spec_i_imm 0xFFF02083 = -1 ∧ ((4095 : Int) ≠ -1) ∧
    disassemble 0xFE002FA3 = some (.S "sw" .zero .zero 4095) ∧
    spec_s_imm 0xFE002FA3 = -1 := by decide

/-- Claim C3, amended: for every word that decodes to an I-type
instruction the decoded immediate is the raw zero-extended field
`bits[31:20]`, and for every word that decodes to an S-type instruction
it is the raw zero-extended field `bits[31:25] over bits[11:7]` (no sign
extension is applied). -/
theorem i_s_immediates_raw :
    (∀ (w : Nat) (name : String) (rd rs1 : ABIRegister) (imm : Nat),
      disassemble w = some (.I name rd rs1 imm) → imm = retrieve_iimm w) ∧
    (∀ (w : Nat) (name : String) (rs1 rs2 : ABIRegister) (imm : Nat),
      disassemble w = some (.S name rs1 rs2 imm) → imm = retrieve_simm w) := by
  constructor
  all_goals
    intro w name r1 r2 imm h
    unfold disassemble at h
    split at h
    · exact Option.noConfusion h
    · repeat' split at h
      all_goals
        first
        | exact Option.noConfusion h
        | (simp only [Option.some.injEq] at h; cases h; rfl)
        | (simp only [Option.some.injEq] at h; exact InstructionType.noConfusion h)

/-- Claim C3, amended, witness: the amended statement instantiated at
the two concrete store/load words. -/
theorem i_s_immediates_raw_witness :
    disassemble 0xFFF02083 = some (.I "lw" .ra .zero 4095) ∧
    (4095 : Nat) = retrieve_iimm 0xFFF02083 ∧
    disassemble 0xFE002FA3 = some (.S "sw" .zero .zero 4095) ∧
    (4095 : Nat) = retrieve_simm 0xFE002FA3 :=
  ⟨by decide,
   i_s_immediates_raw.1 0xFFF02083 "lw" .ra .zero 4095 (by decide),
   by decide,
   i_s_immediates_raw.2 0xFE002FA3 "sw" .zero .zero 4095 (by decide)⟩

/-- Claim C4: the spec says an `Unbranching` section emits every
instruction including the last.  The `Unbranching` arm of
`convert_section` runs the same `index < count - 1` loop as the guarded
arms but has no guard consuming the last instruction, so the last
instruction is dropped: a one-instruction `Unbranching` graph
(`sll a0, a1, a2`) emits no instruction line at all. -/
theorem unbranching_emission_drops_last_instruction :
    (mapLookup single_sll_sections 0).map (fun s => s.instructions.length) =
      some 1 ∧
    high_level_conversion single_sll_sections single_sll_abstract =
      some ["void main() \x7b", "\x7d"] := by decide

/-- Claim C5: the spec (and the comment above `r_if_else`) requires both
successors of the pivot to have exactly one incoming edge.  Because `&&`
binds tighter than `||` in the source guard, the one-outgoing-edge
disjunct ignores the incoming-edge counts: on
`diamond_extra_parent_graph` the rewrite fires at pivot 0 although its
successor 1 has two incoming edges. -/
theorem r_if_else_fires_with_two_incoming_edges :
    (outgoing_edges diamond_extra_parent_graph.edges 0).length = 2 ∧
    edge_at diamond_extra_parent_graph.edges
      ((outgoing_edges diamond_extra_parent_graph.edges 0).headD 0) = (0, 1) ∧
    (incoming_edges diamond_extra_parent_graph.edges 1).length = 2 ∧
    (r_if_else diamond_extra_parent_graph).map (fun r => r.2) = some true := by
  decide

/-- Claim C6: each of the four reduction functions strictly decreases
the vertex count whenever it reports a successful rewrite, and the
iterated reduction loop therefore performs at most `V` successful
rewrites on a graph with `V` vertices. -/
theorem reductions_strictly_decrease_vertices :
    (∀ g g' : AbstractGraph, r_sequential_blocks g = some (g', true) →
      g'.get_no_vertices < g.get_no_vertices) ∧
    (∀ g g' : AbstractGraph, r_single_block_while g = some (g', true) →
      g'.get_no_vertices < g.get_no_vertices) ∧
    (∀ g g' : AbstractGraph, r_if_then g = some (g', true) →
      g'.get_no_vertices < g.get_no_vertices) ∧
    (∀ g g' : AbstractGraph, r_if_else g = some (g', true) →
      g'.get_no_vertices < g.get_no_vertices) ∧
    (∀ (fuel : Nat) (g g' : AbstractGraph) (s i : Nat),
      reduction_loop fuel g 0 0 = some (g', s, i) → s ≤ g.get_no_vertices) := by
  refine ⟨?_, ?_, ?_, ?_, ?_⟩
  · exact fun g g' h => r_sequential_go_true _ _ _ h
  · exact fun g g' h => r_single_while_go_true _ _ _ h
  · exact fun g g' h => r_if_then_go_true _ _ _ h
  · exact fun g g' h => r_if_else_go_true _ _ _ h
  · intro fuel g g' s i h
    simpa using reduction_loop_le fuel g g' 0 0 s i h

/-- Claim C6, witness: the strict-decrease statement and the rewrite
bound instantiated on the concrete two-vertex sequence graph. -/
theorem reductions_strictly_decrease_vertices_witness :
    r_sequential_blocks two_vertex_graph = some (one_vertex_graph, true) ∧
    one_vertex_graph.get_no_vertices < two_vertex_graph.get_no_vertices ∧
    reduction_loop 10 two_vertex_graph 0 0 = some (one_vertex_graph, 1, 2) ∧
    1 ≤ two_vertex_graph.get_no_vertices :=
  ⟨by rfl,
   reductions_strictly_decrease_vertices.1 two_vertex_graph one_vertex_graph
     (by rfl),
   by rfl,
   reductions_strictly_decrease_vertices.2.2.2.2 10 two_vertex_graph
     one_vertex_graph 1 2 (by rfl)⟩

/-- Claim C7: decoding the word 0, the word `0xFFFFFFFF`, or any word
whose lowest two bits are not `11` yields nothing. -/
theorem invalid_words_decode_to_none : ∀ w : Nat, w < 2 ^ 32 →
    (w = 0 ∨ w = 0xFFFFFFFF ∨ w &&& 0b11 ≠ 0b11) → disassemble w = none := by
  intro w _ h
  unfold disassemble
  rw [if_pos h]

/-- Claim C7, witness: the statement instantiated at the three kinds of
invalid word. -/
theorem invalid_words_decode_to_none_witness :
    (0 : Nat) < 2 ^ 32 ∧ disassemble 0 = none ∧
    disassemble 0xFFFFFFFF = none ∧ disassemble 0x00000002 = none :=
  ⟨by decide,
   invalid_words_decode_to_none 0 (by decide) (Or.inl rfl),
   invalid_words_decode_to_none 0xFFFFFFFF (by decide) (Or.inr (Or.inl rfl)),
   invalid_words_decode_to_none 0x00000002 (by decide) (Or.inr (Or.inr (by decide)))⟩

/-- Claim C8: reverse-inorder traversal of the Fibonacci-shaped graph
`(0 to 4, 0 to 1, 1 to 2, 1 to 4, 2 to 3, 2 to 4, 3 to 2)` started at
vertex 0 yields exactly `[4, 3, 2, 1, 0]`. -/
theorem fibb_reverse_inorder_traversal :
    create_fibb_graph.traverse = [4, 3, 2, 1, 0] := by decide

/-- Claim C9, counterexample: the iterated reduction does reduce the
canonical 11-vertex test graph to a single vertex, but with 9 successful
rewrites, not 10 (the assertion `count == 10` of the tests counts loop iterations,
including the final pass in which no rewrite fires). -/
theorem test_graph_reduction_counts_cex :
    (run_reduction create_test_graph).map
      (fun r => (r.1.get_no_vertices, r.2.1)) = some (1, 9) ∧
    (9 : Nat) ≠ 10 := by decide

/-- Claim C9, amended: the iterated reduction reduces the canonical
11-vertex test graph to one vertex in exactly 9 successful rewrites over
10 loop iterations (the last iteration performs no rewrite), and the
5-vertex Fibonacci graph to one vertex in exactly 4 successful rewrites
over 5 loop iterations. -/
theorem iterated_reduction_counts :
    (run_reduction create_test_graph).map
      (fun r => (r.1.get_no_vertices, r.2.1, r.2.2)) = some (1, 9, 10) ∧
    (run_reduction create_fibb_graph).map
      (fun r => (r.1.get_no_vertices, r.2.1, r.2.2)) = some (1, 4, 5) := by decide

/-- Claim C10: `make_blocks` always returns at least one block; when the
input map is non-empty and its highest-addressed instruction is a B- or
J-type instruction, the block list ends with an extra final block with
no instructions and `start = end = 0` (its id is the number of branch
instructions), and the section map produced by `generate_sections`, when
jump resolution succeeds, likewise ends with that empty block. -/
theorem make_blocks_trailing_empty_block :
    (∀ m : List (Nat × InstructionType), 1 ≤ (make_blocks m).length) ∧
    (∀ (m : List (Nat × InstructionType)) (p : Nat × InstructionType),
      List.Pairwise (fun a b => a.1 < b.1) m →
      m.getLast? = some p → (branch_kind p.2).isSome →
      (make_blocks m).getLast? = some (InstructionSection.new (branch_count m))) ∧
    (∀ (m : List (Nat × InstructionType)) (p : Nat × InstructionType)
        (g : List (Nat × InstructionSection)),
      List.Pairwise (fun a b => a.1 < b.1) m →
      m.getLast? = some p → (branch_kind p.2).isSome →
      generate_sections m = some g →
      (g.getLast?).map (fun q => (q.1, q.2.instructions, q.2.start, q.2.endAddr)) =
        some (branch_count m, ([] : List (Nat × InstructionType)), 0, 0)) := by
  refine ⟨fun m => make_blocks_go_length m _ _ _, ?_, ?_⟩
  · intro m p _ hlast hbr
    simpa using make_blocks_go_last m _ 1 [] p (le_refl 1) hlast hbr
  · intro m p g _ hlast hbr hg
    have hlastblocks : (make_blocks m).getLast? =
        some (InstructionSection.new (branch_count m)) := by
      simpa using make_blocks_go_last m _ 1 [] p (le_refl 1) hlast hbr
    unfold generate_sections at hg
    rcases Option.map_eq_some'.1 hg with ⟨out, hout, hfold⟩
    have hcore : out.map section_core = (make_blocks m).map section_core := by
      unfold resolve_jumps at hout
      exact core_resolve_go _ _ _ _ hout
    have hids : (make_blocks m).map (fun s => s.id) =
        List.range (make_blocks m).length :=
      make_blocks_go_ids m _ 1 [] (by simp) rfl rfl
    have hidsout : out.map (fun s => s.id) = List.range (make_blocks m).length := by
      have h1 : (out.map section_core).map (fun c => c.1) =
          ((make_blocks m).map section_core).map (fun c => c.1) := by rw [hcore]
      simp only [List.map_map] at h1
      have h2 : out.map (fun s => s.id) = (make_blocks m).map (fun s => s.id) := by
        simpa [Function.comp, section_core] using h1
      rw [h2, hids]
    have hpw : List.Pairwise (fun a b : InstructionSection => a.id < b.id) out := by
      have hr := List.pairwise_lt_range ((make_blocks m).length)
      rw [← hidsout] at hr
      exact (List.pairwise_map).1 hr
    have hlastcore : (out.getLast?).map section_core =
        some (section_core (InstructionSection.new (branch_count m))) := by
      rw [← getLast?_list_map, hcore, getLast?_list_map, hlastblocks]
      rfl
    have hfold2 : g = out.map (fun s => (s.id, s)) := by
      rw [← hfold, foldl_mapInsert out [] (by simp) hpw]
      simp
    rw [hfold2, getLast?_list_map]
    cases hO : out.getLast? with
    | none => rw [hO] at hlastcore; simp at hlastcore
    | some s =>
      rw [hO] at hlastcore
      simp only [Option.map_some', Option.some.injEq] at hlastcore
      simp only [section_core, InstructionSection.new, Prod.mk.injEq] at hlastcore
      obtain ⟨h1, h2, h3, h4, h5⟩ := hlastcore
      simp [h1, h2, h4, h5]

/-- Claim C10, witness: the three conjuncts instantiated on the concrete
one-branch program. -/
theorem make_blocks_trailing_empty_block_witness :
    1 ≤ (make_blocks simple_branch_program).length ∧
    (make_blocks simple_branch_program).getLast? =
      some (InstructionSection.new (branch_count simple_branch_program)) ∧
    generate_sections simple_branch_program = some simple_branch_sections ∧
    (simple_branch_sections.getLast?).map
        (fun q => (q.1, q.2.instructions, q.2.start, q.2.endAddr)) =
      some (branch_count simple_branch_program,
        ([] : List (Nat × InstructionType)), 0, 0) :=
  ⟨make_blocks_trailing_empty_block.1 simple_branch_program,
   make_blocks_trailing_empty_block.2.1 simple_branch_program
     (4, .B "beq" .t0 .s1 4) (by decide) (by rfl) (by decide),
   by rfl,
   make_blocks_trailing_empty_block.2.2 simple_branch_program
     (4, .B "beq" .t0 .s1 4) simple_branch_sections (by decide) (by rfl)
     (by decide) (by rfl)⟩

end Asha
